import Mathlib

/-!
Shallow embedding of `src/ext/radspberry_audio/radspberry_audio.c`:
a lock-free single-producer single-consumer ring buffer feeding a
real-time audio callback with a linear fade-out and a mute latch.

Modelling conventions:
* the C globals (`ring_buffer`, `write_pos`, `read_pos`, `stream_active`,
  `sample_rate`, `fading_out`, `fade_gain`, `muted`, `fade_samples`) become
  the fields of `AudioState`;
* `size_t` cursors become `ℕ` with the `% BUFFER_SIZE` reductions written
  exactly where the C code writes them;
* `float` samples and the fade gain become `ℚ` (exact arithmetic in place
  of IEEE binary32; every operation is translated literally);
* the C `int` sample rate and `fade_samples` become `ℤ`, with the C `/`
  (truncation toward zero) rendered as `Int.tdiv`;
* the Ruby-visible fallible entry points (`rb_start`, `rb_push`) return
  `Except String _`, mirroring `rb_raise`; the PortAudio calls themselves
  are external collaborators and are modelled as succeeding.
-/

/-- BUFFER_SIZE from the C source: `#define BUFFER_SIZE 32768`. -/
def BUFFER_SIZE : ℕ := 32768

/-- The process-wide mutable state of the C extension: one field per C
global variable (the opaque `PaStream *stream` handle is external and
carries no modelled information). -/
structure AudioState where
  ring_buffer : ℕ → ℚ
  write_pos : ℕ
  read_pos : ℕ
  stream_active : Bool
  sample_rate : ℤ
  fading_out : Bool
  fade_gain : ℚ
  muted : Bool
  fade_samples : ℤ

/-- Initial values of the C globals (file scope initializers). -/
def initState : AudioState :=
  { ring_buffer := fun _ => 0
    write_pos := 0
    read_pos := 0
    stream_active := false
    sample_rate := 44100
    fading_out := false
    fade_gain := 1
    muted := false
    fade_samples := 882 }

/-- `buffer_available`: samples available to read,
`if (w >= r) return w - r; return BUFFER_SIZE - r + w;`. -/
def buffer_available (s : AudioState) : ℕ :=
  if s.write_pos ≥ s.read_pos then s.write_pos - s.read_pos
  else BUFFER_SIZE - s.read_pos + s.write_pos

/-- `buffer_free`: free space for writing,
`BUFFER_SIZE - buffer_available() - 1`. -/
def buffer_free (s : AudioState) : ℕ :=
  BUFFER_SIZE - buffer_available s - 1

/-- Local state threaded through one `audio_callback` invocation:
`read_pos` and `muted` are globals written inside the loop, `available`
and `gain` are the callback's local copies (`available`,
`local_fade_gain`). -/
structure CbState where
  read_pos : ℕ
  muted : Bool
  available : ℕ
  gain : ℚ

/-- One iteration of the `audio_callback` frame loop: consume-or-silence,
then the fade-out block guarded by `fading_out && !muted`. -/
def cb_frame (fading : Bool) (delta : ℚ) (buf : ℕ → ℚ) (c : CbState) :
    CbState × ℚ :=
  let step : CbState × ℚ :=
    if c.muted then
      if 0 < c.available then
        ({ c with read_pos := (c.read_pos + 1) % BUFFER_SIZE,
                  available := c.available - 1 }, 0)
      else (c, 0)
    else if 0 < c.available then
      ({ c with read_pos := (c.read_pos + 1) % BUFFER_SIZE,
                available := c.available - 1 }, buf c.read_pos)
    else (c, 0)
  if fading && !c.muted then
    let s2 := step.2 * c.gain
    let g := c.gain - delta
    if g < 0 then ({ step.1 with gain := 0, muted := true }, s2)
    else ({ step.1 with gain := g }, s2)
  else step

/-- The `for (i = 0; i < frame_count; i++)` loop of `audio_callback`,
returning the final loop state and the list of output samples. -/
def cb_run (fading : Bool) (delta : ℚ) (buf : ℕ → ℚ) :
    CbState → ℕ → CbState × List ℚ
  | c, 0 => (c, [])
  | c, n + 1 =>
    let r1 := cb_frame fading delta buf c
    let r2 := cb_run fading delta buf r1.1 n
    (r2.1, r1.2 :: r2.2)

/-- `fade_delta` as computed at the top of `audio_callback`:
`1.0f / fade_samples` (meaningful when `fade_samples ≠ 0`; the
`sample_rate < 50` degenerate case is the subject of a safety claim). -/
def fade_delta (s : AudioState) : ℚ :=
  1 / (s.fade_samples : ℚ)

/-- `audio_callback` on `frame_count` frames: snapshots `available` and
`fade_gain`, runs the frame loop, writes the gain back only
`if (fading_out)`. Returns the new global state and the output block. -/
def audio_callback (s : AudioState) (frame_count : ℕ) :
    AudioState × List ℚ :=
  let c0 : CbState :=
    { read_pos := s.read_pos, muted := s.muted,
      available := buffer_available s, gain := s.fade_gain }
  let r := cb_run s.fading_out (fade_delta s) s.ring_buffer c0 frame_count
  ({ s with read_pos := r.1.read_pos, muted := r.1.muted,
            fade_gain := if s.fading_out then r.1.gain else s.fade_gain },
   r.2)

/-- The write loop of `rb_push`: store at `write_pos`, advance it by
`(write_pos + 1) % BUFFER_SIZE`, for each sample of the list. -/
def rb_push_go (buf : ℕ → ℚ) (w : ℕ) : List ℚ → (ℕ → ℚ) × ℕ
  | [] => (buf, w)
  | x :: xs => rb_push_go (Function.update buf w x) ((w + 1) % BUFFER_SIZE) xs

/-- `rb_push`: raises when the stream is not active, otherwise writes
`to_write = min len free_space` leading samples and returns the count. -/
def rb_push (s : AudioState) (samples : List ℚ) :
    Except String (AudioState × ℕ) :=
  if !s.stream_active then .error "Stream not active"
  else
    let free_space := buffer_free s
    let to_write := min samples.length free_space
    let r := rb_push_go s.ring_buffer s.write_pos (samples.take to_write)
    .ok ({ s with ring_buffer := r.1, write_pos := r.2 }, to_write)

/-- `rb_start`: raises when already active; otherwise resets the buffer,
the cursors and the fade state, stores the sample rate, computes
`fade_samples = (sample_rate * FADE_TIME_MS) / 1000` in C `int`
arithmetic (truncating division), and marks the stream active. The
PortAudio initialization is external and modelled as succeeding. -/
def rb_start (s : AudioState) (srate : ℤ) : Except String AudioState :=
  if s.stream_active then .error "Stream already active"
  else .ok
    { s with
      sample_rate := srate
      write_pos := 0
      read_pos := 0
      ring_buffer := fun _ => 0
      fading_out := false
      fade_gain := 1
      muted := false
      fade_samples := Int.tdiv (srate * 20) 1000
      stream_active := true }

/-- `rb_stop`: returns `false` when not active, otherwise stops the
stream (external) and marks the session inactive. -/
def rb_stop (s : AudioState) : AudioState × Bool :=
  if !s.stream_active then (s, false)
  else ({ s with stream_active := false }, true)

/-- `rb_available`: Ruby-visible free-space query. -/
def rb_available (s : AudioState) : ℕ := buffer_free s

/-- `rb_buffered`: Ruby-visible buffered-samples query. -/
def rb_buffered (s : AudioState) : ℕ := buffer_available s

/-- `rb_active_p`: Ruby-visible activity query. -/
def rb_active_p (s : AudioState) : Bool := s.stream_active

/-- `rb_clear`: resets both cursors to 0 (and nothing else). -/
def rb_clear (s : AudioState) : AudioState :=
  { s with write_pos := 0, read_pos := 0 }

/-- `rb_fade_out`: sets the `fading_out` flag. -/
def rb_fade_out (s : AudioState) : AudioState :=
  { s with fading_out := true }

/-- `rb_faded_p`: `fading_out && fade_gain <= 0.0f`. -/
def rb_faded_p (s : AudioState) : Bool :=
  s.fading_out && decide (s.fade_gain ≤ 0)

/-- `rb_muted_p`: the `muted` flag. -/
def rb_muted_p (s : AudioState) : Bool := s.muted

/-- Pushing a list of sample blocks in order (repeated `rb_push` calls),
keeping only the resulting state. -/
def pushAll (s : AudioState) : List (List ℚ) → Except String AudioState
  | [] => .ok s
  | xs :: xss =>
    match rb_push s xs with
    | .error e => .error e
    | .ok (s1, _) => pushAll s1 xss

/-- States reachable from the initial C globals by any interleaving of
the modelled operations. -/
inductive Reachable : AudioState → Prop
  | init : Reachable initState
  | start {s s' : AudioState} {srate : ℤ} :
      Reachable s → rb_start s srate = .ok s' → Reachable s'
  | stop {s : AudioState} : Reachable s → Reachable (rb_stop s).1
  | push {s s' : AudioState} {xs : List ℚ} {k : ℕ} :
      Reachable s → rb_push s xs = .ok (s', k) → Reachable s'
  | callback {s : AudioState} (n : ℕ) :
      Reachable s → Reachable (audio_callback s n).1
  | clear {s : AudioState} : Reachable s → Reachable (rb_clear s)
  | fadeOut {s : AudioState} : Reachable s → Reachable (rb_fade_out s)

/-- The ring buffer holds exactly the pending list `L` ahead of the read
cursor: the write cursor sits `L.length` slots past the read cursor and
the intervening cells store `L` in order. -/
def holdsList (s : AudioState) (L : List ℚ) : Prop :=
  s.read_pos < BUFFER_SIZE ∧
  s.write_pos = (s.read_pos + L.length) % BUFFER_SIZE ∧
  L.length ≤ BUFFER_SIZE - 1 ∧
  ∀ i, i < L.length →
    s.ring_buffer ((s.read_pos + i) % BUFFER_SIZE) = L.getD i 0

/-- A freshly started session (the state `rb_start` produces from the
initial state at 44100 Hz); used as a concrete instance in witnesses. -/
def startedState : AudioState :=
  { ring_buffer := fun _ => 0
    write_pos := 0
    read_pos := 0
    stream_active := true
    sample_rate := 44100
    fading_out := false
    fade_gain := 1
    muted := false
    fade_samples := 882 }

/-- A started session whose ring is full (`buffer_free = 0`); concrete
instance for the push-truncation witness. -/
def fullState : AudioState :=
  { startedState with write_pos := 32767 }

/-- A started, muted session holding three unread samples; concrete
instance for the mute-drain witness. -/
def mutedState : AudioState :=
  { startedState with muted := true, write_pos := 3 }

/-- A state whose cell 0 holds a nonzero sample; concrete instance
showing that `rb_clear` does not zero the buffer contents. -/
def dirtyState : AudioState :=
  { startedState with
      ring_buffer := fun i => if i = 0 then 1 else 0
      write_pos := 1 }

/-! Helper lemmas: the push loop. -/

lemma rb_push_go_snd (xs : List ℚ) : ∀ (buf : ℕ → ℚ) (w : ℕ),
    w < BUFFER_SIZE →
    (rb_push_go buf w xs).2 = (w + xs.length) % BUFFER_SIZE := by
  induction xs with
  | nil => intro buf w hw; simp [rb_push_go, Nat.mod_eq_of_lt hw]
  | cons x xs ih =>
    intro buf w hw
    simp only [rb_push_go, List.length_cons]
    rw [ih _ _ (Nat.mod_lt _ (by decide)), Nat.mod_add_mod]
    congr 1
    omega

lemma rb_push_go_preserve (xs : List ℚ) : ∀ (buf : ℕ → ℚ) (w idx : ℕ),
    w < BUFFER_SIZE →
    (∀ j, j < xs.length → idx ≠ (w + j) % BUFFER_SIZE) →
    (rb_push_go buf w xs).1 idx = buf idx := by
  induction xs with
  | nil => intro buf w idx hw h; simp [rb_push_go]
  | cons x xs ih =>
    intro buf w idx hw h
    have hne : idx ≠ w := by
      have h0 := h 0 (by simp)
      simpa [Nat.mod_eq_of_lt hw] using h0
    simp only [rb_push_go]
    rw [ih _ _ _ (Nat.mod_lt _ (by decide)) ?_]
    · exact Function.update_noteq hne x buf
    · intro j hj
      have hj1 := h (j + 1) (by simpa using Nat.succ_lt_succ hj)
      rw [Nat.mod_add_mod, show w + 1 + j = w + (j + 1) from by omega]
      exact hj1

lemma rb_push_go_get (xs : List ℚ) : ∀ (buf : ℕ → ℚ) (w j : ℕ),
    w < BUFFER_SIZE → xs.length ≤ BUFFER_SIZE → j < xs.length →
    (rb_push_go buf w xs).1 ((w + j) % BUFFER_SIZE) = xs.getD j 0 := by
  induction xs with
  | nil => intro buf w j _ _ hj; simp at hj
  | cons x xs ih =>
    intro buf w j hw hlen hj
    cases j with
    | zero =>
      simp only [rb_push_go, Nat.add_zero, Nat.mod_eq_of_lt hw,
        List.getD_cons_zero]
      rw [rb_push_go_preserve xs _ _ _ (Nat.mod_lt _ (by decide)) ?_]
      · exact Function.update_same w x buf
      · intro j hj heq
        have hlen' : xs.length + 1 ≤ BUFFER_SIZE := by
          simpa [List.length_cons] using hlen
        rw [Nat.mod_add_mod, show w + 1 + j = w + (j + 1) from by omega] at heq
        simp only [BUFFER_SIZE] at heq hw hlen'
        omega
    | succ j =>
      simp only [rb_push_go, List.getD_cons_succ]
      rw [show (w + (j + 1)) % BUFFER_SIZE
            = ((w + 1) % BUFFER_SIZE + j) % BUFFER_SIZE from by
          rw [Nat.mod_add_mod]; congr 1; omega]
      exact ih _ _ _ (Nat.mod_lt _ (by decide))
        (by simp only [List.length_cons] at hlen; omega)
        (by simpa using hj)

/-! Helper lemmas: cursor arithmetic. -/

lemma buffer_available_lt (s : AudioState)
    (hr : s.read_pos < BUFFER_SIZE) (hw : s.write_pos < BUFFER_SIZE) :
    buffer_available s < BUFFER_SIZE := by
  simp only [buffer_available, BUFFER_SIZE] at *
  split <;> omega

lemma write_pos_eq (s : AudioState)
    (hr : s.read_pos < BUFFER_SIZE) (hw : s.write_pos < BUFFER_SIZE) :
    s.write_pos = (s.read_pos + buffer_available s) % BUFFER_SIZE := by
  simp only [buffer_available, BUFFER_SIZE] at *
  split <;> omega

lemma buffer_available_advance (s : AudioState) (k : ℕ)
    (hr : s.read_pos < BUFFER_SIZE) (hw : s.write_pos < BUFFER_SIZE)
    (hk : k ≤ buffer_available s) :
    buffer_available
      { s with read_pos := (s.read_pos + k) % BUFFER_SIZE }
      = buffer_available s - k := by
  simp only [buffer_available, BUFFER_SIZE] at *
  split at hk <;> split <;> omega

/-! Helper lemmas: one callback frame. -/

lemma cb_frame_available (f : Bool) (d : ℚ) (buf : ℕ → ℚ) (c : CbState) :
    (cb_frame f d buf c).1.available = c.available - 1 := by
  cases hm : c.muted <;> cases hf : f <;> by_cases ha : 0 < c.available <;>
    by_cases hg : c.gain - d < 0 <;>
      simp [cb_frame, hm, hf, ha, hg] <;> omega

lemma cb_frame_read_pos (f : Bool) (d : ℚ) (buf : ℕ → ℚ) (c : CbState) :
    (cb_frame f d buf c).1.read_pos =
      if 0 < c.available then (c.read_pos + 1) % BUFFER_SIZE
      else c.read_pos := by
  cases hm : c.muted <;> cases hf : f <;> by_cases ha : 0 < c.available <;>
    by_cases hg : c.gain - d < 0 <;>
      simp [cb_frame, hm, hf, ha, hg]

lemma cb_frame_of_muted (f : Bool) (d : ℚ) (buf : ℕ → ℚ) (c : CbState)
    (hm : c.muted = true) :
    cb_frame f d buf c =
      (if 0 < c.available then
        ({ c with read_pos := (c.read_pos + 1) % BUFFER_SIZE,
                  available := c.available - 1 }, 0)
       else (c, 0)) := by
  simp [cb_frame, hm]

lemma cb_frame_plain (d : ℚ) (buf : ℕ → ℚ) (c : CbState)
    (hm : c.muted = false) :
    cb_frame false d buf c =
      (if 0 < c.available then
        ({ c with read_pos := (c.read_pos + 1) % BUFFER_SIZE,
                  available := c.available - 1 }, buf c.read_pos)
       else (c, 0)) := by
  simp [cb_frame, hm]

lemma cb_frame_snd_zero (f : Bool) (d : ℚ) (buf : ℕ → ℚ) (c : CbState)
    (ha : c.available = 0) :
    (cb_frame f d buf c).2 = 0 := by
  cases hm : c.muted <;> cases hf : f <;>
    by_cases hg : c.gain - d < 0 <;>
      simp [cb_frame, hm, hf, hg, ha]

/-! Helper lemmas: the callback frame loop. -/

lemma cb_run_length (f : Bool) (d : ℚ) (buf : ℕ → ℚ) :
    ∀ (n : ℕ) (c : CbState), ((cb_run f d buf c n).2).length = n := by
  intro n
  induction n with
  | zero => intro c; simp [cb_run]
  | succ n ih => intro c; simp [cb_run, ih]

lemma cb_run_available (f : Bool) (d : ℚ) (buf : ℕ → ℚ) :
    ∀ (n : ℕ) (c : CbState),
    ((cb_run f d buf c n).1).available = c.available - n := by
  intro n
  induction n with
  | zero => intro c; simp [cb_run]
  | succ n ih =>
    intro c
    simp only [cb_run]
    rw [ih, cb_frame_available]
    omega

lemma cb_run_read_pos (f : Bool) (d : ℚ) (buf : ℕ → ℚ) :
    ∀ (n : ℕ) (c : CbState), c.read_pos < BUFFER_SIZE →
    ((cb_run f d buf c n).1).read_pos =
      (c.read_pos + min n c.available) % BUFFER_SIZE := by
  intro n
  induction n with
  | zero => intro c hr; simp [cb_run, Nat.mod_eq_of_lt hr]
  | succ n ih =>
    intro c hr
    have hr1 : (cb_frame f d buf c).1.read_pos < BUFFER_SIZE := by
      rw [cb_frame_read_pos]
      split
      · exact Nat.mod_lt _ (by decide)
      · exact hr
    simp only [cb_run]
    rw [ih _ hr1, cb_frame_read_pos, cb_frame_available]
    by_cases ha : 0 < c.available
    · simp only [ha, if_true, if_pos]
      rw [Nat.mod_add_mod]
      congr 1
      omega
    · have ha0 : c.available = 0 := by omega
      simp [ha0, Nat.mod_eq_of_lt hr]

lemma cb_run_muted (f : Bool) (d : ℚ) (buf : ℕ → ℚ) :
    ∀ (n : ℕ) (c : CbState), c.muted = true →
    ((cb_run f d buf c n).1).muted = true ∧
    ((cb_run f d buf c n).1).gain = c.gain ∧
    (∀ q ∈ (cb_run f d buf c n).2, q = 0) := by
  intro n
  induction n with
  | zero => intro c hm; simp [cb_run, hm]
  | succ n ih =>
    intro c hm
    simp only [cb_run]
    rw [cb_frame_of_muted f d buf c hm]
    by_cases ha : 0 < c.available
    · have h1 := ih { c with read_pos := (c.read_pos + 1) % BUFFER_SIZE,
                             available := c.available - 1 } hm
      simp only [ha, if_pos] at *
      refine ⟨h1.1, h1.2.1, ?_⟩
      intro q hq
      rcases List.mem_cons.1 hq with h | h
      · exact h
      · exact h1.2.2 q h
    · have h1 := ih c hm
      simp only [ha, if_neg, if_false] at *
      refine ⟨h1.1, h1.2.1, ?_⟩
      intro q hq
      rcases List.mem_cons.1 hq with h | h
      · exact h
      · exact h1.2.2 q h

lemma cb_run_out_zero (f : Bool) (d : ℚ) (buf : ℕ → ℚ) :
    ∀ (n : ℕ) (c : CbState) (i : ℕ), c.available ≤ i →
    ∀ hi : i < ((cb_run f d buf c n).2).length,
    ((cb_run f d buf c n).2).get ⟨i, hi⟩ = 0 := by
  intro n
  induction n with
  | zero => intro c i _ hi; simp [cb_run] at hi
  | succ n ih =>
    intro c i hle hi
    simp only [cb_run] at hi ⊢
    cases i with
    | zero =>
      have ha : c.available = 0 := by omega
      simpa using cb_frame_snd_zero f d buf c ha
    | succ i =>
      have hle1 : ((cb_frame f d buf c).1).available ≤ i := by
        rw [cb_frame_available]; omega
      exact ih _ i hle1 _

lemma cb_run_drain (d : ℚ) (buf : ℕ → ℚ) :
    ∀ (L : List ℚ) (c : CbState), c.muted = false →
    c.read_pos < BUFFER_SIZE → c.available = L.length →
    (∀ i, i < L.length →
      buf ((c.read_pos + i) % BUFFER_SIZE) = L.getD i 0) →
    (cb_run false d buf c L.length).2 = L := by
  intro L
  induction L with
  | nil => intro c _ _ _ _; simp [cb_run]
  | cons x L ih =>
    intro c hm hr ha hbuf
    have hpos : 0 < c.available := by rw [ha]; simp
    simp only [List.length_cons, cb_run]
    rw [cb_frame_plain d buf c hm]
    simp only [hpos, if_pos]
    have hhead : buf c.read_pos = x := by
      have := hbuf 0 (by simp)
      simpa [Nat.mod_eq_of_lt hr] using this
    rw [hhead]
    congr 1
    refine ih _ hm (Nat.mod_lt _ (by decide)) (by rw [ha]; simp) ?_
    intro i hiL
    have := hbuf (i + 1) (by simpa using Nat.succ_lt_succ hiL)
    rw [Nat.mod_add_mod, show c.read_pos + 1 + i = c.read_pos + (i + 1) from by
      omega]
    simpa using this

/-! Helper lemmas: the buffer-contents invariant under pushes. -/

lemma holdsList_available (s : AudioState) (L : List ℚ)
    (h : holdsList s L) : buffer_available s = L.length := by
  obtain ⟨hr, hw, hlen, _⟩ := h
  simp only [buffer_available, BUFFER_SIZE] at *
  rw [hw]
  split <;> omega

lemma holdsList_write_lt (s : AudioState) (L : List ℚ)
    (h : holdsList s L) : s.write_pos < BUFFER_SIZE := by
  rw [h.2.1]
  exact Nat.mod_lt _ (by decide)

lemma push_extends (s : AudioState) (L xs : List ℚ)
    (h : holdsList s L) (ha : s.stream_active = true)
    (hfit : L.length + xs.length ≤ BUFFER_SIZE - 1) :
    ∃ s', rb_push s xs = .ok (s', xs.length) ∧ holdsList s' (L ++ xs) ∧
      s'.read_pos = s.read_pos ∧ s'.stream_active = s.stream_active ∧
      s'.muted = s.muted ∧ s'.fading_out = s.fading_out ∧
      s'.fade_gain = s.fade_gain ∧ s'.fade_samples = s.fade_samples := by
  obtain ⟨hr, hw, hlen, hbuf⟩ := h
  have havail : buffer_available s = L.length :=
    holdsList_available s L ⟨hr, hw, hlen, hbuf⟩
  have hwlt : s.write_pos < BUFFER_SIZE := by
    rw [hw]; exact Nat.mod_lt _ (by decide)
  have hfree : buffer_free s = BUFFER_SIZE - 1 - L.length := by
    simp only [buffer_free, havail, BUFFER_SIZE] at *
    omega
  have hto : min xs.length (buffer_free s) = xs.length := by
    rw [hfree]
    simp only [BUFFER_SIZE] at *
    omega
  refine ⟨{ s with
      ring_buffer := (rb_push_go s.ring_buffer s.write_pos xs).1,
      write_pos := (rb_push_go s.ring_buffer s.write_pos xs).2 },
    ?_, ?_, rfl, rfl, rfl, rfl, rfl, rfl⟩
  · simp only [rb_push, ha, Bool.not_true, Bool.false_eq_true, if_false,
      hto, List.take_length]
  · refine ⟨hr, ?_, ?_, ?_⟩
    · show (rb_push_go s.ring_buffer s.write_pos xs).2
        = (s.read_pos + (L ++ xs).length) % BUFFER_SIZE
      rw [rb_push_go_snd xs _ _ hwlt, hw, Nat.mod_add_mod,
        List.length_append, Nat.add_assoc]
    · rw [List.length_append]
      exact hfit
    · intro i hi
      rw [List.length_append] at hi
      show (rb_push_go s.ring_buffer s.write_pos xs).1
          ((s.read_pos + i) % BUFFER_SIZE) = (L ++ xs).getD i 0
      by_cases hiL : i < L.length
      · rw [rb_push_go_preserve xs _ _ _ hwlt ?_, hbuf i hiL,
          List.getD_append _ _ _ _ hiL]
        intro j hj
        rw [hw, Nat.mod_add_mod]
        simp only [BUFFER_SIZE] at *
        omega
      · have hj : i - L.length < xs.length := by omega
        have hcell : (s.read_pos + i) % BUFFER_SIZE
            = (s.write_pos + (i - L.length)) % BUFFER_SIZE := by
          rw [hw, Nat.mod_add_mod]
          congr 1
          omega
        rw [hcell, rb_push_go_get xs _ _ _ hwlt
            (by simp only [BUFFER_SIZE] at *; omega) hj,
          List.getD_append_right _ _ _ _ (by omega)]

lemma pushAll_extends : ∀ (xss : List (List ℚ)) (s : AudioState)
    (L : List ℚ), holdsList s L → s.stream_active = true →
    L.length + xss.flatten.length ≤ BUFFER_SIZE - 1 →
    ∃ s', pushAll s xss = .ok s' ∧ holdsList s' (L ++ xss.flatten) ∧
      s'.read_pos = s.read_pos ∧ s'.stream_active = s.stream_active ∧
      s'.muted = s.muted ∧ s'.fading_out = s.fading_out ∧
      s'.fade_gain = s.fade_gain ∧ s'.fade_samples = s.fade_samples := by
  intro xss
  induction xss with
  | nil =>
    intro s L h ha _
    exact ⟨s, by simp [pushAll], by simpa using h, rfl, rfl, rfl, rfl,
      rfl, rfl⟩
  | cons xs xss ih =>
    intro s L h ha hfit
    rw [List.flatten_cons, List.length_append] at hfit
    obtain ⟨s1, hp1, h1, hrd1, hac1, hmu1, hfa1, hga1, hfs1⟩ :=
      push_extends s L xs h ha (by omega)
    obtain ⟨s2, hp2, h2, hrd2, hac2, hmu2, hfa2, hga2, hfs2⟩ :=
      ih s1 (L ++ xs) h1 (by rw [hac1]; exact ha)
        (by rw [List.length_append]; omega)
    refine ⟨s2, ?_, ?_, ?_, ?_, ?_, ?_, ?_, ?_⟩
    · simp only [pushAll, hp1, hp2]
    · rw [List.flatten_cons, ← List.append_assoc]
      exact h2
    · rw [hrd2, hrd1]
    · rw [hac2, hac1]
    · rw [hmu2, hmu1]
    · rw [hfa2, hfa1]
    · rw [hga2, hga1]
    · rw [hfs2, hfs1]

/-! Helper lemmas: unfolding `audio_callback`. -/

lemma audio_callback_fst (s : AudioState) (n : ℕ) :
    (audio_callback s n).1 =
      { s with
        read_pos := (cb_run s.fading_out (fade_delta s) s.ring_buffer
          ⟨s.read_pos, s.muted, buffer_available s, s.fade_gain⟩ n).1.read_pos
        muted := (cb_run s.fading_out (fade_delta s) s.ring_buffer
          ⟨s.read_pos, s.muted, buffer_available s, s.fade_gain⟩ n).1.muted
        fade_gain :=
          if s.fading_out then
            (cb_run s.fading_out (fade_delta s) s.ring_buffer
              ⟨s.read_pos, s.muted, buffer_available s, s.fade_gain⟩ n).1.gain
          else s.fade_gain } := rfl

lemma audio_callback_snd (s : AudioState) (n : ℕ) :
    (audio_callback s n).2 =
      (cb_run s.fading_out (fade_delta s) s.ring_buffer
        ⟨s.read_pos, s.muted, buffer_available s, s.fade_gain⟩ n).2 := rfl

/-! Helper lemmas: the cursor-bound invariant over reachable states. -/

lemma reachable_cursors {s : AudioState} (h : Reachable s) :
    s.read_pos < BUFFER_SIZE ∧ s.write_pos < BUFFER_SIZE := by
  induction h with
  | init => exact ⟨by decide, by decide⟩
  | start hre heq ih =>
    unfold rb_start at heq
    split at heq
    · exact absurd heq (by simp)
    · cases heq
      exact ⟨show (0 : ℕ) < BUFFER_SIZE by decide,
        show (0 : ℕ) < BUFFER_SIZE by decide⟩
  | stop hre ih =>
    unfold rb_stop
    split
    · exact ih
    · exact ih
  | push hre heq ih =>
    unfold rb_push at heq
    split at heq
    · exact absurd heq (by simp)
    · cases heq
      refine ⟨ih.1, ?_⟩
      show (rb_push_go _ _ _).2 < BUFFER_SIZE
      rw [rb_push_go_snd _ _ _ ih.2]
      exact Nat.mod_lt _ (by decide)
  | callback n hre ih =>
    rw [audio_callback_fst]
    refine ⟨?_, ih.2⟩
    show (cb_run _ _ _ _ n).1.read_pos < BUFFER_SIZE
    rw [cb_run_read_pos _ _ _ n _ ih.1]
    exact Nat.mod_lt _ (by decide)
  | clear hre ih =>
    exact ⟨show (0 : ℕ) < BUFFER_SIZE by decide,
      show (0 : ℕ) < BUFFER_SIZE by decide⟩
  | fadeOut hre ih => exact ih

/-! The claims. -/

/-- Claim C2: in every reachable state (any interleaving of start, stop,
push, callback drains, clear and fade requests) `available()` plus
`buffered()` equals `capacity - 1` for the fixed capacity
`BUFFER_SIZE = 32768`. -/
theorem c2_available_plus_buffered (s : AudioState) (h : Reachable s) :
    rb_available s + rb_buffered s = BUFFER_SIZE - 1 := by
  obtain ⟨hr, hw⟩ := reachable_cursors h
  have hlt := buffer_available_lt s hr hw
  simp only [rb_available, rb_buffered, buffer_free, BUFFER_SIZE] at *
  omega

/-- Witness for C2 at the initial state. -/
theorem c2_witness :
    rb_available initState + rb_buffered initState = BUFFER_SIZE - 1 :=
  c2_available_plus_buffered initState Reachable.init

/-- Claim C9: every reachable state (hence every operation) keeps both
cursors strictly below `BUFFER_SIZE = 32768`, so each `ring_buffer`
access indexes within bounds. -/
theorem c9_cursors_in_bounds (s : AudioState) (h : Reachable s) :
    s.read_pos < BUFFER_SIZE ∧ s.write_pos < BUFFER_SIZE :=
  reachable_cursors h

/-- Witness for C9 at the initial state. -/
theorem c9_witness :
    initState.read_pos < BUFFER_SIZE ∧ initState.write_pos < BUFFER_SIZE :=
  c9_cursors_in_bounds initState Reachable.init

/-- Claim C7: `rb_fade_out` is idempotent — a second call leaves the state
exactly as one call left it, and a call never touches the gain or the
fade length, so the per-frame decrement and remaining ramp are those of a
single call. -/
theorem c7_fade_out_idempotent (s : AudioState) :
    rb_fade_out (rb_fade_out s) = rb_fade_out s ∧
    (rb_fade_out s).fade_gain = s.fade_gain ∧
    (rb_fade_out s).fade_samples = s.fade_samples ∧
    (rb_fade_out s).fading_out = true :=
  ⟨rfl, rfl, rfl, rfl⟩

/-- Claim C8 counterexample: `rb_clear` does not reset the buffer
contents to silence — cell 0 of `dirtyState` still holds the nonzero
sample 1 after `rb_clear`. -/
theorem c8_counterexample :
    (rb_clear dirtyState).ring_buffer 0 = 1 ∧ (1 : ℚ) ≠ 0 := by
  refine ⟨by decide, by norm_num⟩

/-- Claim C8 (amended): `rb_clear` resets both cursors to 0 and changes
nothing else — the buffer contents, fade-requested flag, gain, muted
flag, active flag, sample rate and fade length are all unchanged. -/
theorem c8_clear_resets_cursors_only (s : AudioState) :
    (rb_clear s).write_pos = 0 ∧ (rb_clear s).read_pos = 0 ∧
    (rb_clear s).ring_buffer = s.ring_buffer ∧
    (rb_clear s).fading_out = s.fading_out ∧
    (rb_clear s).fade_gain = s.fade_gain ∧
    (rb_clear s).muted = s.muted ∧
    (rb_clear s).stream_active = s.stream_active ∧
    (rb_clear s).sample_rate = s.sample_rate ∧
    (rb_clear s).fade_samples = s.fade_samples :=
  ⟨rfl, rfl, rfl, rfl, rfl, rfl, rfl, rfl, rfl⟩

/-- Claim C10: `rb_start` sets `fade_samples = (srate * 20) tdiv 1000`
(C `int` arithmetic) and the callback's per-frame decrement is
`1 / fade_samples`; a sample rate of at least 50 makes the divisor at
least 1 (the zero-divisor case cannot arise), while any positive sample
rate below 50 makes `fade_samples` equal to 0. -/
theorem c10_fade_divisor (s : AudioState) (srate : ℤ)
    (ha : s.stream_active = false) :
    ∃ s', rb_start s srate = .ok s' ∧
      s'.fade_samples = Int.tdiv (srate * 20) 1000 ∧
      fade_delta s' = 1 / ((Int.tdiv (srate * 20) 1000 : ℤ) : ℚ) ∧
      (50 ≤ srate → 1 ≤ s'.fade_samples) ∧
      (0 < srate → srate < 50 → s'.fade_samples = 0) := by
  refine ⟨{ s with
      sample_rate := srate
      write_pos := 0
      read_pos := 0
      ring_buffer := fun _ => 0
      fading_out := false
      fade_gain := 1
      muted := false
      fade_samples := Int.tdiv (srate * 20) 1000
      stream_active := true }, ?_, rfl, rfl, ?_, ?_⟩
  · simp only [rb_start, ha, Bool.false_eq_true, if_false]
  · intro h50
    show 1 ≤ Int.tdiv (srate * 20) 1000
    rw [Int.tdiv_eq_ediv (by omega) (by omega)]
    omega
  · intro hpos h50
    show Int.tdiv (srate * 20) 1000 = 0
    rw [Int.tdiv_eq_ediv (by omega) (by omega)]
    omega

/-- Witness for C10 at the initial state and 44100 Hz (and, for the
below-50 branch, the hypotheses are dischargeable at rate 44100 only
vacuously, so the witness exercises the 50-or-more branch). -/
theorem c10_witness :
    ∃ s', rb_start initState 44100 = .ok s' ∧
      s'.fade_samples = Int.tdiv (44100 * 20) 1000 ∧
      fade_delta s' = 1 / ((Int.tdiv (44100 * 20) 1000 : ℤ) : ℚ) ∧
      (50 ≤ (44100 : ℤ) → 1 ≤ s'.fade_samples) ∧
      (0 < (44100 : ℤ) → (44100 : ℤ) < 50 → s'.fade_samples = 0) :=
  c10_fade_divisor initState 44100 rfl

/-- Claim C5: when a callback invocation requests more frames than
`buffered()` holds, every frame at an index at or beyond the buffered
count outputs exactly 0 (silence) — no stale or consumed cell is
re-emitted. -/
theorem c5_underrun_silence (s : AudioState) (n i : ℕ)
    (hge : buffer_available s ≤ i)
    (hi : i < ((audio_callback s n).2).length) :
    ((audio_callback s n).2).get ⟨i, hi⟩ = 0 :=
  cb_run_out_zero s.fading_out (fade_delta s) s.ring_buffer n
    ⟨s.read_pos, s.muted, buffer_available s, s.fade_gain⟩ i hge hi

/-- Witness for C5: an empty started session drained for 2 frames
outputs 0 at frame index 1. -/
theorem c5_witness :
    ((audio_callback startedState 2).2).get ⟨1, by decide⟩ = 0 :=
  c5_underrun_silence startedState 2 1 (by decide) (by decide)

/-- Claim C6: once `muted` is set, every drained frame outputs exactly 0,
and while the ring holds data each frame still advances the read cursor,
so `buffered()` drops by exactly one per frame until empty; the mute
flag persists through the callback. -/
theorem c6_mute_drains (s : AudioState) (n : ℕ) (hm : s.muted = true)
    (hr : s.read_pos < BUFFER_SIZE) (hw : s.write_pos < BUFFER_SIZE) :
    (∀ q ∈ (audio_callback s n).2, q = 0) ∧
    (audio_callback s n).1.read_pos =
      (s.read_pos + min n (buffer_available s)) % BUFFER_SIZE ∧
    buffer_available (audio_callback s n).1 =
      buffer_available s - min n (buffer_available s) ∧
    (audio_callback s n).1.muted = true := by
  have hmu := cb_run_muted s.fading_out (fade_delta s) s.ring_buffer n
    ⟨s.read_pos, s.muted, buffer_available s, s.fade_gain⟩ hm
  have hread := cb_run_read_pos s.fading_out (fade_delta s) s.ring_buffer n
    ⟨s.read_pos, s.muted, buffer_available s, s.fade_gain⟩ hr
  refine ⟨?_, ?_, ?_, ?_⟩
  · rw [audio_callback_snd]
    exact hmu.2.2
  · rw [audio_callback_fst]
    exact hread
  · have harith := buffer_available_advance s
      (min n (buffer_available s)) hr hw (Nat.min_le_right _ _)
    rw [audio_callback_fst]
    show buffer_available { s with
        read_pos := (cb_run s.fading_out (fade_delta s) s.ring_buffer
          ⟨s.read_pos, s.muted, buffer_available s, s.fade_gain⟩ n).1.read_pos }
      = buffer_available s - min n (buffer_available s)
    rw [hread]
    exact harith
  · rw [audio_callback_fst]
    exact hmu.1

/-- Witness for C6: a muted session holding 3 unread samples drained for
2 frames. -/
theorem c6_witness :
    (∀ q ∈ (audio_callback mutedState 2).2, q = 0) ∧
    (audio_callback mutedState 2).1.read_pos =
      (mutedState.read_pos + min 2 (buffer_available mutedState))
        % BUFFER_SIZE ∧
    buffer_available (audio_callback mutedState 2).1 =
      buffer_available mutedState - min 2 (buffer_available mutedState) ∧
    (audio_callback mutedState 2).1.muted = true :=
  c6_mute_drains mutedState 2 rfl (by decide) (by decide)

lemma getD_take : ∀ (l : List ℚ) (n j : ℕ), j < n →
    (l.take n).getD j 0 = l.getD j 0 := by
  intro l
  induction l with
  | nil => intro n j h; simp
  | cons x l ih =>
    intro n j h
    cases n with
    | zero => omega
    | succ n =>
      cases j with
      | zero => simp
      | succ j => simpa using ih n j (by omega)

/-- Claim C3: pushing a list longer than the free space writes and
returns exactly `buffer_free` (the free count at call time, 0 when the
ring is full) leading samples, and leaves every cell holding unread data
untouched. -/
theorem c3_push_truncates (s : AudioState) (xs : List ℚ)
    (ha : s.stream_active = true) (hr : s.read_pos < BUFFER_SIZE)
    (hw : s.write_pos < BUFFER_SIZE) (hlen : buffer_free s < xs.length) :
    ∃ s', rb_push s xs = .ok (s', buffer_free s) ∧
      (∀ j, j < buffer_free s →
        s'.ring_buffer ((s.write_pos + j) % BUFFER_SIZE) = xs.getD j 0) ∧
      (∀ i, i < buffer_available s →
        s'.ring_buffer ((s.read_pos + i) % BUFFER_SIZE)
          = s.ring_buffer ((s.read_pos + i) % BUFFER_SIZE)) := by
  have havlt : buffer_available s < BUFFER_SIZE :=
    buffer_available_lt s hr hw
  have hF : buffer_free s = BUFFER_SIZE - buffer_available s - 1 := rfl
  have hto : min xs.length (buffer_free s) = buffer_free s := by omega
  have htklen : (xs.take (buffer_free s)).length = buffer_free s := by
    rw [List.length_take]
    omega
  refine ⟨{ s with
      ring_buffer := (rb_push_go s.ring_buffer s.write_pos
        (xs.take (buffer_free s))).1,
      write_pos := (rb_push_go s.ring_buffer s.write_pos
        (xs.take (buffer_free s))).2 }, ?_, ?_, ?_⟩
  · simp only [rb_push, ha, Bool.not_true, Bool.false_eq_true, if_false,
      hto]
  · intro j hj
    show (rb_push_go s.ring_buffer s.write_pos
        (xs.take (buffer_free s))).1 ((s.write_pos + j) % BUFFER_SIZE)
      = xs.getD j 0
    rw [rb_push_go_get _ _ _ _ hw
        (by rw [htklen]; simp only [BUFFER_SIZE] at *; omega)
        (by rw [htklen]; exact hj)]
    exact getD_take xs (buffer_free s) j hj
  · intro i hi
    show (rb_push_go s.ring_buffer s.write_pos
        (xs.take (buffer_free s))).1 ((s.read_pos + i) % BUFFER_SIZE)
      = s.ring_buffer ((s.read_pos + i) % BUFFER_SIZE)
    apply rb_push_go_preserve _ _ _ _ hw
    intro j hj
    rw [htklen] at hj
    rw [write_pos_eq s hr hw, Nat.mod_add_mod]
    simp only [BUFFER_SIZE] at *
    omega

/-- Witness for C3: pushing one sample into a full ring writes nothing
and preserves all unread cells. -/
theorem c3_witness :
    ∃ s', rb_push fullState [42] = .ok (s', buffer_free fullState) ∧
      (∀ j, j < buffer_free fullState →
        s'.ring_buffer ((fullState.write_pos + j) % BUFFER_SIZE)
          = [(42 : ℚ)].getD j 0) ∧
      (∀ i, i < buffer_available fullState →
        s'.ring_buffer ((fullState.read_pos + i) % BUFFER_SIZE)
          = fullState.ring_buffer ((fullState.read_pos + i) % BUFFER_SIZE)) :=
  c3_push_truncates fullState [42] rfl (by decide) (by decide) (by decide)

/-- Claim C1: pushing any sequence of sample blocks of total length at
most `BUFFER_SIZE - 1` into an empty active buffer, with no fade
requested and no mute set, and then draining that many frames through
`audio_callback`, outputs exactly the pushed samples in order — FIFO,
nothing reordered, nothing duplicated. -/
theorem c1_roundtrip_fifo (s : AudioState) (xss : List (List ℚ))
    (ha : s.stream_active = true) (hr : s.read_pos < BUFFER_SIZE)
    (he : s.write_pos = s.read_pos) (hf : s.fading_out = false)
    (hm : s.muted = false)
    (hlen : xss.flatten.length ≤ BUFFER_SIZE - 1) :
    ∃ s', pushAll s xss = .ok s' ∧
      (audio_callback s' xss.flatten.length).2 = xss.flatten := by
  have h0 : holdsList s [] := by
    refine ⟨hr, ?_, by decide, by simp⟩
    rw [he, List.length_nil, Nat.add_zero, Nat.mod_eq_of_lt hr]
  obtain ⟨s', hps, hold, hrd, hac, hmu, hfa, hga, hfs⟩ :=
    pushAll_extends xss s [] h0 ha (by simpa using hlen)
  rw [List.nil_append] at hold
  refine ⟨s', hps, ?_⟩
  have hav : buffer_available s' = xss.flatten.length :=
    holdsList_available s' xss.flatten hold
  have hfa' : s'.fading_out = false := by rw [hfa, hf]
  have hmu' : s'.muted = false := by rw [hmu, hm]
  rw [audio_callback_snd, hfa']
  rw [show (⟨s'.read_pos, s'.muted, buffer_available s', s'.fade_gain⟩
      : CbState)
    = ⟨s'.read_pos, false, xss.flatten.length, s'.fade_gain⟩ from by
      rw [hmu', hav]]
  exact cb_run_drain (fade_delta s') s'.ring_buffer xss.flatten
    ⟨s'.read_pos, false, xss.flatten.length, s'.fade_gain⟩ rfl hold.1 rfl
    (fun i hi => hold.2.2.2 i hi)

/-- Witness for C1: pushing the blocks `[1, 2]` and `[3]` into a fresh
session and draining 3 frames reproduces `[1, 2, 3]`. -/
theorem c1_witness :
    ∃ s', pushAll startedState ([[1, 2], [3]] : List (List ℚ)) = .ok s' ∧
      (audio_callback s'
          ([[1, 2], [3]] : List (List ℚ)).flatten.length).2
        = ([[1, 2], [3]] : List (List ℚ)).flatten :=
  c1_roundtrip_fifo startedState ([[1, 2], [3]] : List (List ℚ)) rfl
    (by decide) rfl rfl rfl (by decide)
